import Mathlib

/-!
Verification of the streamline-rendering core of `drawField.js`: bilinear
field sampling with boundary substitutions, gradient color mapping,
the field-to-canvas coordinate transform and the segment rasterizer,
modelled over exact rational and real arithmetic.
-/

/-- The dataset-derived state captured by the closures of `processItem`:
grid dimensions (`width = Ni`, `height = Nj - 1`), the normalized flat
storage `vfData`, and the physical ranges of both velocity components. -/
structure VField where
  width : ℤ
  height : ℤ
  vf : ℤ → ℚ
  uMin : ℚ
  uMax : ℚ
  vMin : ℚ
  vMax : ℚ

/-- `outside(x, y)`: checks if a point is outside of the visible area. -/
def outside (F : VField) (x y : ℤ) : Bool :=
  decide (x < 0) || decide (F.width ≤ x) || decide (y < 0) || decide (F.height ≤ y)

/-- `getXY(x, y)`: given vector field coordinates, read the value pair from
the wind texture `vfData`. -/
def getXY (F : VField) (x y : ℤ) : Option (ℚ × ℚ) :=
  if outside F x y then none
  else some (F.vf ((x + y * F.width) * 2), F.vf ((x + y * F.width) * 2 + 1))

/-- `mix(a, b, ratio)`: linear interpolation between two points,
`a * ratio + (1 - ratio) * b` componentwise. -/
def mix (a b : ℚ × ℚ) (t : ℚ) : ℚ × ℚ :=
  (a.1 * t + (1 - t) * b.1, a.2 * t + (1 - t) * b.2)

/-- The denormalization `value * (max - min) + min` applied by
`vectorField` to the interpolated sample. -/
def denorm (v mx mn : ℚ) : ℚ :=
  v * (mx - mn) + mn

/-- The load-time normalization `(value - minimum) / (maximum - minimum)`
applied by `processItem` when filling `vfData`. A zero denominator gives
no finite value (IEEE `0/0 = NaN`, `x/0 = ±Infinity` in JavaScript),
modelled as `none`. -/
def normalizeVal (v mn mx : ℚ) : Option ℚ :=
  if mx - mn = 0 then none else some ((v - mn) / (mx - mn))

/-- The index computation at the start of `vectorField`: floor and ceiling
of the query point followed by the four boundary substitutions, returning
`(lx, ly, ux, uy)`. -/
def subIdx (F : VField) (p : ℚ × ℚ) : ℤ × ℤ × ℤ × ℤ :=
  let lx0 : ℤ := ⌊p.1⌋
  let ly0 : ℤ := ⌊p.2⌋
  let ux0 : ℤ := ⌈p.1⌉
  let uy0 : ℤ := ⌈p.2⌉
  let lx : ℤ := if lx0 < 0 then ux0 else lx0
  let ux : ℤ := if F.width ≤ ux0 then lx else ux0
  let ly : ℤ := if ly0 < 0 then uy0 else ly0
  let uy : ℤ := if F.height < uy0 then ly else uy0
  (lx, ly, ux, uy)

/-- The body of `vectorField` after the index substitutions: the outside
check, the four corner fetches, bilinear interpolation and
denormalization with the x-component negated. -/
def vectorFieldAux (F : VField) (p : ℚ × ℚ) (lx ly ux uy : ℤ) : Option (ℚ × ℚ) :=
  if outside F lx ly || outside F ux uy then none
  else
    (getXY F lx ly).bind fun tl =>
    (getXY F (lx + 1) ly).bind fun tr =>
    (getXY F lx (ly + 1)).bind fun bl =>
    (getXY F (lx + 1) (ly + 1)).bind fun br =>
      some
        (-(denorm (mix (mix tl tr (p.1 - (lx : ℚ))) (mix bl br (p.1 - (lx : ℚ)))
              (1 - p.2 + (ly : ℚ))).1 F.uMax F.uMin),
         denorm (mix (mix tl tr (p.1 - (lx : ℚ))) (mix bl br (p.1 - (lx : ℚ)))
              (1 - p.2 + (ly : ℚ))).2 F.vMax F.vMin)

/-- `vectorField(p)`: the field sampler of `drawField.js`. -/
def vectorField (F : VField) (p : ℚ × ℚ) : Option (ℚ × ℚ) :=
  vectorFieldAux F p (subIdx F p).1 (subIdx F p).2.1 (subIdx F p).2.2.1 (subIdx F p).2.2.2

/-- JavaScript `Math.round`: round half toward positive infinity. -/
def jsRound {K : Type} [LinearOrderedField K] [FloorRing K] (x : K) : ℤ :=
  ⌊x + 1 / 2⌋

/-- The bounding box `{left, top, width, height}` in field-space units. -/
structure BoundingBox where
  left : ℚ
  top : ℚ
  width : ℚ
  height : ℚ

/-- `transform(pt)`: turns a vector field point into a canvas point. -/
def transform (box : BoundingBox) (cw ch : ℤ) (pt : ℚ × ℚ) : ℤ × ℤ :=
  (jsRound ((pt.1 - box.left) / box.width * (cw : ℚ)),
   jsRound ((pt.2 - box.top) / box.height * (ch : ℚ)))

/-- A gradient stop `{stop, r, g, b}`. -/
structure Stop (K : Type) where
  stop : K
  r : ℤ
  g : ℤ
  b : ℤ

/-- An rgb color triple with integer 8-bit channels. -/
structure RGB where
  r : ℤ
  g : ℤ
  b : ℤ

/-- The color channels of a stop, as returned by the clamping branches. -/
def Stop.rgb {K : Type} (s : Stop K) : RGB :=
  ⟨s.r, s.g, s.b⟩

namespace makeGradient

variable {K : Type} [LinearOrderedField K] [FloorRing K]

/-- The gradient's `mix(a, b, t)`: per-channel rounded linear
interpolation `round(a.c * t + (1 - t) * b.c)`. -/
def mix (a b : Stop K) (t : K) : RGB :=
  ⟨jsRound ((a.r : K) * t + (1 - t) * (b.r : K)),
   jsRound ((a.g : K) * t + (1 - t) * (b.g : K)),
   jsRound ((a.b : K) * t + (1 - t) * (b.b : K))⟩

/-- The scan loop inside `getColor`: walk consecutive stop pairs and
return the interpolated color of the first bracketing pair; `none`
models the `throw` at the end of the loop. -/
def scan (fr : Stop K) (rest : List (Stop K)) (t : K) : Option RGB :=
  match rest with
  | [] => none
  | nxt :: rest2 =>
    if fr.stop ≤ t ∧ t < nxt.stop then
      some (mix nxt fr ((t - fr.stop) / (nxt.stop - fr.stop)))
    else scan nxt rest2 t

/-- The `getColor(t)` closure produced by `makeGradient(stops)`. -/
def getColor (stops : List (Stop K)) (t : K) : Option RGB :=
  match stops with
  | [] => none
  | s0 :: rest =>
    if t ≤ 0 then some s0.rgb
    else if 1 ≤ t then some (rest.getLastD s0).rgb
    else scan s0 rest t

end makeGradient

/-- The process-wide gradient configuration of `drawField.js`. -/
def gradStops (K : Type) [LinearOrderedField K] : List (Stop K) :=
  [⟨0, 0x28, 0x28, 0x28⟩, ⟨1 / 2, 0x6a, 0xa8, 0xc6⟩, ⟨1, 0xe2, 0xe5, 0xaa⟩]

/-- An rgba stroke color with exact real alpha. -/
structure Color where
  r : ℤ
  g : ℤ
  b : ℤ
  a : ℝ

/-- `maxVelocity = Math.sqrt(uMax * uMax + vMax * vMax)`. -/
noncomputable def maxVelocity (F : VField) : ℝ :=
  Real.sqrt ((F.uMax : ℝ) * (F.uMax : ℝ) + (F.vMax : ℝ) * (F.vMax : ℝ))

/-- The rasterizer's `getColor(x, y)`: sample the field at the point; an
undefined sample yields `rgba(0, 0, 0, 1.)`; otherwise map normalized
magnitude through the gradient with alpha `0.1 + gray * 0.9`. An overall
`none` models the gradient's throw propagating. -/
noncomputable def getColor (F : VField) (stops : List (Stop ℝ)) (x y : ℚ) : Option Color :=
  match vectorField F (x, y) with
  | none => some ⟨0, 0, 0, 1⟩
  | some p =>
    (makeGradient.getColor stops
        (Real.sqrt ((p.1 : ℝ) * (p.1 : ℝ) + (p.2 : ℝ) * (p.2 : ℝ)) / maxVelocity F)).map
      fun c =>
        ⟨c.r, c.g, c.b,
         0.1 + Real.sqrt ((p.1 : ℝ) * (p.1 : ℝ) + (p.2 : ℝ) * (p.2 : ℝ)) / maxVelocity F * 0.9⟩

/-- One stroked segment: its stroke color and transformed endpoints. -/
structure Segment where
  color : Option Color
  p1 : ℤ × ℤ
  p2 : ℤ × ℤ

/-- `drawSegment(a, b)`: stroke from `a` to `b`, colored by the sample at
the segment midpoint. -/
noncomputable def drawSegment (F : VField) (stops : List (Stop ℝ)) (box : BoundingBox)
    (cw ch : ℤ) (a b : ℚ × ℚ) : Segment :=
  ⟨getColor F stops ((a.1 + b.1) * 0.5) ((a.2 + b.2) * 0.5),
   transform box cw ch a, transform box cw ch b⟩

/-- `onStreamlineAdded(points)`: draw a segment for every consecutive
pair of path points. -/
noncomputable def onStreamlineAdded (F : VField) (stops : List (Stop ℝ)) (box : BoundingBox)
    (cw ch : ℤ) (points : List (ℚ × ℚ)) : List Segment :=
  (points.zip points.tail).map fun ab => drawSegment F stops box cw ch ab.1 ab.2

/-- A 3x3 field whose normalized u-grid is 1 at vertex (2, 1) and 0
elsewhere, with ranges [0, 1] for both components. -/
def Fcex : VField :=
  ⟨3, 3, fun i => if i = 10 then 1 else 0, 0, 1, 0, 1⟩

/-- The 4x4 field of the spec example: both normalized grids constant 1/2,
minimum 0 and maximum 10 for both components. -/
def F44 : VField :=
  ⟨4, 4, fun _ => 1 / 2, 0, 10, 0, 10⟩

/-- A 3x3 field with constant normalized grid 0 and ranges u in [-10, 3],
v in [0, 4]: the loaded storage of a dataset whose raw u-values are all
-10 and raw v-values all 0. -/
def Fc9 : VField :=
  ⟨3, 3, fun _ => 0, -10, 3, 0, 4⟩

/-- A 3x3 field with constant normalized grid 1 and ranges u in [0, 3],
v in [0, 4]. -/
def Fw9 : VField :=
  ⟨3, 3, fun _ => 1, 0, 3, 0, 4⟩

/-- A concrete 3x3 bounding box. -/
def box33 : BoundingBox :=
  ⟨0, 0, 3, 3⟩

/-- An outside corner makes `getXY` return no value. -/
theorem getXY_none {F : VField} {x y : ℤ} (h : outside F x y = true) :
    getXY F x y = none := by
  simp [getXY, h]

/-- A successful `getXY` fetch implies the corner is inside the domain. -/
theorem getXY_some_outside {F : VField} {x y : ℤ} {r : ℚ × ℚ}
    (h : getXY F x y = some r) : outside F x y = false := by
  unfold getXY at h
  split at h
  · exact Option.noConfusion h
  · rename_i hc
    simpa using hc

/-- Inversion of a successful sample: both outside checks passed, all four
corner fetches succeeded, and the result is the interpolated and
denormalized value with its x-component negated. -/
theorem aux_some_inv {F : VField} {p : ℚ × ℚ} {lx ly ux uy : ℤ} {q : ℚ × ℚ}
    (h : vectorFieldAux F p lx ly ux uy = some q) :
    outside F lx ly = false ∧ outside F ux uy = false ∧
    ∃ tl tr bl br, getXY F lx ly = some tl ∧ getXY F (lx + 1) ly = some tr ∧
      getXY F lx (ly + 1) = some bl ∧ getXY F (lx + 1) (ly + 1) = some br ∧
      q = (-(denorm (mix (mix tl tr (p.1 - (lx : ℚ))) (mix bl br (p.1 - (lx : ℚ)))
              (1 - p.2 + (ly : ℚ))).1 F.uMax F.uMin),
           denorm (mix (mix tl tr (p.1 - (lx : ℚ))) (mix bl br (p.1 - (lx : ℚ)))
              (1 - p.2 + (ly : ℚ))).2 F.vMax F.vMin) := by
  unfold vectorFieldAux at h
  split at h
  · exact Option.noConfusion h
  · rename_i hcond
    simp only [Bool.or_eq_true, not_or, Bool.not_eq_true] at hcond
    rcases Option.bind_eq_some.mp h with ⟨tl, htl, h⟩
    rcases Option.bind_eq_some.mp h with ⟨tr, htr, h⟩
    rcases Option.bind_eq_some.mp h with ⟨bl, hbl, h⟩
    rcases Option.bind_eq_some.mp h with ⟨br, hbr, h⟩
    injection h with h
    exact ⟨hcond.1, hcond.2, tl, tr, bl, br, htl, htr, hbl, hbr, h.symm⟩

/-- If any of the four fetched corners is outside the domain, the sampler
body returns no value. -/
theorem aux_corner_none {F : VField} {p : ℚ × ℚ} {lx ly ux uy : ℤ}
    (h : outside F lx ly = true ∨ outside F (lx + 1) ly = true ∨
         outside F lx (ly + 1) = true ∨ outside F (lx + 1) (ly + 1) = true) :
    vectorFieldAux F p lx ly ux uy = none := by
  cases hv : vectorFieldAux F p lx ly ux uy with
  | none => rfl
  | some q =>
    obtain ⟨h1, -, tl, tr, bl, br, htl, htr, hbl, hbr, -⟩ := aux_some_inv hv
    rcases h with h | h | h | h
    · simp [h] at h1
    · have h2 := getXY_some_outside htr
      simp [h] at h2
    · have h2 := getXY_some_outside hbl
      simp [h] at h2
    · have h2 := getXY_some_outside hbr
      simp [h] at h2

/-- The substituted lower x-index. -/
theorem subIdx_fst (F : VField) (p : ℚ × ℚ) :
    (subIdx F p).1 = if ⌊p.1⌋ < 0 then ⌈p.1⌉ else ⌊p.1⌋ := rfl

/-- The substituted lower y-index. -/
theorem subIdx_snd (F : VField) (p : ℚ × ℚ) :
    (subIdx F p).2.1 = if ⌊p.2⌋ < 0 then ⌈p.2⌉ else ⌊p.2⌋ := rfl

/-- Interpolating between equal endpoints returns the endpoint. -/
theorem mix_same (a : ℚ × ℚ) (t : ℚ) : mix a a t = a := by
  obtain ⟨a1, a2⟩ := a
  simp only [mix, Prod.mk.injEq]
  constructor <;> ring

/-- Interpolation at ratio 0 returns the second argument. -/
theorem mix_zero (a b : ℚ × ℚ) : mix a b 0 = b := by
  obtain ⟨b1, b2⟩ := b
  simp only [mix, Prod.mk.injEq]
  constructor <;> ring

/-- Interpolation at ratio 1 returns the first argument. -/
theorem mix_one (a b : ℚ × ℚ) : mix a b 1 = a := by
  obtain ⟨a1, a2⟩ := a
  simp only [mix, Prod.mk.injEq]
  constructor <;> ring

/-- The scan loop finds a bracketing pair whenever the running `from`
stop is at or below `t` and the last stop is strictly above `t`. -/
theorem scan_isSome {K : Type} [LinearOrderedField K] [FloorRing K]
    (fr : Stop K) (rest : List (Stop K)) (t : K)
    (hfr : fr.stop ≤ t) (hlast : t < (rest.getLastD fr).stop) :
    (makeGradient.scan fr rest t).isSome = true := by
  induction rest generalizing fr with
  | nil =>
    rw [List.getLastD_nil] at hlast
    exact absurd hlast (not_lt.mpr hfr)
  | cons nxt rest2 ih =>
    rw [makeGradient.scan]
    split
    · rfl
    · rename_i hcond
      push_neg at hcond
      rw [List.getLastD_cons] at hlast
      exact ih nxt (hcond hfr) hlast

/-- C3: for every query point, after the boundary substitutions, if any
of the four corner indices `(lx,ly)`, `(lx+1,ly)`, `(lx,ly+1)`,
`(lx+1,ly+1)` lies outside `[0,width) x [0,height)`, the field sampler
returns no value. -/
theorem c3_corner_undefined (F : VField) (p : ℚ × ℚ)
    (h : outside F (subIdx F p).1 (subIdx F p).2.1 = true ∨
         outside F ((subIdx F p).1 + 1) (subIdx F p).2.1 = true ∨
         outside F (subIdx F p).1 ((subIdx F p).2.1 + 1) = true ∨
         outside F ((subIdx F p).1 + 1) ((subIdx F p).2.1 + 1) = true) :
    vectorField F p = none := by
  unfold vectorField
  exact aux_corner_none h

/-- Witness for C3 at the concrete field `Fcex` and query `(2, 1)`, whose
corner `(3, 1)` is outside the 3x3 domain. -/
theorem c3_corner_undefined_witness : vectorField Fcex (2, 1) = none :=
  c3_corner_undefined Fcex (2, 1)
    (Or.inr (Or.inl (by norm_num [subIdx_fst, subIdx_snd, outside, Fcex])))

/-- C10: every query with `p.x ≥ width - 1` or `p.y ≥ height - 1` yields
no value, because the corner fetches always use `lx + 1` and `ly + 1`. -/
theorem c10_upper_edge_undefined (F : VField) (p : ℚ × ℚ)
    (h : (F.width : ℚ) - 1 ≤ p.1 ∨ (F.height : ℚ) - 1 ≤ p.2) :
    vectorField F p = none := by
  unfold vectorField
  apply aux_corner_none
  rcases h with h | h
  · rcases le_or_lt F.width 0 with hw | hw
    · left
      simp only [outside, Bool.or_eq_true, decide_eq_true_eq]
      omega
    · have hfl : F.width - 1 ≤ ⌊p.1⌋ := by
        rw [Int.le_floor]
        push_cast
        linarith
      right; left
      rw [subIdx_fst, if_neg (by omega)]
      simp only [outside, Bool.or_eq_true, decide_eq_true_eq]
      omega
  · rcases le_or_lt F.height 0 with hh | hh
    · left
      simp only [outside, Bool.or_eq_true, decide_eq_true_eq]
      omega
    · have hfl : F.height - 1 ≤ ⌊p.2⌋ := by
        rw [Int.le_floor]
        push_cast
        linarith
      right; right; left
      rw [subIdx_snd, if_neg (by omega)]
      simp only [outside, Bool.or_eq_true, decide_eq_true_eq]
      omega

/-- Witness for C10: the in-domain point `(3, 1)` on the last grid column
of the 4x4 field is rejected. -/
theorem c10_upper_edge_undefined_witness : vectorField F44 (3, 1) = none :=
  c10_upper_edge_undefined F44 (3, 1) (Or.inl (by norm_num [F44]))

/-- C6: for a gradient whose ordered stops cover 0 and 1, `getColor`
returns the first stop's color for all `t ≤ 0` and the last stop's color
for all `t ≥ 1`. -/
theorem c6_clamp {K : Type} [LinearOrderedField K] [FloorRing K]
    (s0 : Stop K) (rest : List (Stop K)) (t : K)
    (_h0 : s0.stop = 0) (_h1 : ((s0 :: rest).getLastD s0).stop = 1) :
    (t ≤ 0 → makeGradient.getColor (s0 :: rest) t = some s0.rgb) ∧
    (1 ≤ t → makeGradient.getColor (s0 :: rest) t = some (rest.getLastD s0).rgb) := by
  constructor
  · intro ht
    simp [makeGradient.getColor, ht]
  · intro ht
    have ht0 : ¬ t ≤ 0 := by
      intro hc
      exact absurd (le_trans ht hc) (by norm_num)
    simp [makeGradient.getColor, ht, ht0]

/-- Witness for C6 on the program's own gradient at `t = -1` and `t = 2`. -/
theorem c6_clamp_witness :
    makeGradient.getColor (gradStops ℚ) (-1) = some (⟨0, 0x28, 0x28, 0x28⟩ : Stop ℚ).rgb ∧
    makeGradient.getColor (gradStops ℚ) 2 = some (⟨1, 0xe2, 0xe5, 0xaa⟩ : Stop ℚ).rgb :=
  ⟨(c6_clamp ⟨0, 0x28, 0x28, 0x28⟩ [⟨1 / 2, 0x6a, 0xa8, 0xc6⟩, ⟨1, 0xe2, 0xe5, 0xaa⟩]
      (-1) rfl rfl).1 (by norm_num),
   (c6_clamp ⟨0, 0x28, 0x28, 0x28⟩ [⟨1 / 2, 0x6a, 0xa8, 0xc6⟩, ⟨1, 0xe2, 0xe5, 0xaa⟩]
      2 rfl rfl).2 (by norm_num)⟩

/-- C7: for a well-formed stop list (non-decreasing positions, first 0,
last 1) and any input `t`, `getColor` never reaches the throw branch. -/
theorem c7_no_throw {K : Type} [LinearOrderedField K] [FloorRing K]
    (s0 : Stop K) (rest : List (Stop K)) (t : K)
    (h0 : s0.stop = 0) (h1 : ((s0 :: rest).getLastD s0).stop = 1)
    (_hmono : List.Chain' (fun a b => a.stop ≤ b.stop) (s0 :: rest)) :
    (makeGradient.getColor (s0 :: rest) t).isSome = true := by
  rw [makeGradient.getColor]
  split
  · rfl
  · split
    · rfl
    · rename_i ht0 ht1
      push_neg at ht0 ht1
      rw [List.getLastD_cons] at h1
      apply scan_isSome
      · rw [h0]
        exact le_of_lt ht0
      · rw [h1]
        exact ht1

/-- Witness for C7 on the program's own gradient at `t = 1/2`. -/
theorem c7_no_throw_witness :
    (makeGradient.getColor (gradStops ℚ) (1 / 2)).isSome = true :=
  c7_no_throw ⟨0, 0x28, 0x28, 0x28⟩ [⟨1 / 2, 0x6a, 0xa8, 0xc6⟩, ⟨1, 0xe2, 0xe5, 0xaa⟩]
    (1 / 2) rfl rfl (by norm_num [List.Chain'])

/-- C8: for every bounding box with positive width and height, the
transform maps the top-left corner to `(0, 0)` and the bottom-right
corner to `(rasterWidth, rasterHeight)` exactly. -/
theorem c8_roundtrip (box : BoundingBox) (cw ch : ℤ)
    (hw : 0 < box.width) (hh : 0 < box.height) :
    transform box cw ch (box.left, box.top) = (0, 0) ∧
    transform box cw ch (box.left + box.width, box.top + box.height) = (cw, ch) := by
  unfold transform jsRound
  constructor
  · simp only [Prod.mk.injEq]
    constructor <;>
    · rw [sub_self, zero_div, zero_mul, zero_add]
      norm_num
  · simp only [Prod.mk.injEq]
    constructor
    · rw [show box.left + box.width - box.left = box.width by ring,
        div_self (ne_of_gt hw), one_mul, add_comm, Int.floor_add_int]
      norm_num
    · rw [show box.top + box.height - box.top = box.height by ring,
        div_self (ne_of_gt hh), one_mul, add_comm, Int.floor_add_int]
      norm_num

/-- Witness for C8 at the concrete box `box33` and the canvas size
`1280 x 720` of `drawField.js`. -/
theorem c8_roundtrip_witness :
    transform box33 1280 720 (box33.left, box33.top) = (0, 0) ∧
    transform box33 1280 720 (box33.left + box33.width, box33.top + box33.height) =
      (1280, 720) :=
  c8_roundtrip box33 1280 720 (by norm_num [box33]) (by norm_num [box33])

/-- Inside corners make `outside` false. -/
theorem outside_false {F : VField} {x y : ℤ} (h1 : 0 ≤ x) (h2 : x < F.width)
    (h3 : 0 ≤ y) (h4 : y < F.height) : outside F x y = false := by
  simp only [outside, Bool.or_eq_false_iff, decide_eq_false_iff_not]
  omega

/-- C1 (counterexample): in `Fcex`, vertex `(1, 1)` carries normalized
value `(0, 0)`, whose denormalized x-negated value is `(0, 0)`; yet the
sampler at `(1, 1)` returns `(-1, 0)` — the value of vertex `(2, 1)`. -/
theorem c1_counterexample :
    getXY Fcex 1 1 = some (0, 0) ∧
    vectorField Fcex (1, 1) = some (-1, 0) ∧
    ¬ (some ((-1 : ℚ), (0 : ℚ)) =
       some (-(denorm 0 Fcex.uMax Fcex.uMin), denorm 0 Fcex.vMax Fcex.vMin)) := by
  refine ⟨?_, ?_, ?_⟩
  · norm_num [getXY, outside, Fcex]
  · norm_num [vectorField, vectorFieldAux, subIdx, getXY, outside, mix, denorm, Fcex]
  · norm_num [denorm, Fcex]

/-- C1 (amended): sampling at a grid vertex `(x0, y0)` strictly inside the
domain returns the denormalized, x-negated value of the neighboring
vertex `(x0 + 1, y0)`, because `mix(a, b, ratio)` weights `a` by `ratio`
and the fractional parts are 0 there. -/
theorem c1_vertex_shifted (F : VField) (x0 y0 : ℤ)
    (hx0 : 0 < x0) (hx1 : x0 < F.width - 1) (hy0 : 0 < y0) (hy1 : y0 < F.height - 1) :
    vectorField F ((x0 : ℚ), (y0 : ℚ)) =
      some (-(denorm (F.vf ((x0 + 1 + y0 * F.width) * 2)) F.uMax F.uMin),
            denorm (F.vf ((x0 + 1 + y0 * F.width) * 2 + 1)) F.vMax F.vMin) := by
  have hc1 : ¬((x0 : ℤ) < 0) := by omega
  have hc2 : ¬(F.width ≤ x0) := by omega
  have hc3 : ¬((y0 : ℤ) < 0) := by omega
  have hc4 : ¬(F.height < y0) := by omega
  have hsub : subIdx F ((x0 : ℚ), (y0 : ℚ)) = (x0, y0, x0, y0) := by
    simp [subIdx, Int.floor_intCast, Int.ceil_intCast, hc1, hc2, hc3, hc4]
  have ho : outside F x0 y0 = false :=
    outside_false (by omega) (by omega) (by omega) (by omega)
  have ho2 : outside F (x0 + 1) y0 = false :=
    outside_false (by omega) (by omega) (by omega) (by omega)
  have ho3 : outside F x0 (y0 + 1) = false :=
    outside_false (by omega) (by omega) (by omega) (by omega)
  have ho4 : outside F (x0 + 1) (y0 + 1) = false :=
    outside_false (by omega) (by omega) (by omega) (by omega)
  unfold vectorField
  rw [hsub]
  unfold vectorFieldAux
  simp [getXY, ho, ho2, ho3, ho4, mix_zero, mix_one, sub_self, sub_add_cancel]

/-- Witness for the amended C1 on `Fcex` at vertex `(1, 1)`: the sampler
returns `(-1, 0)`, the denormalized x-negated value of vertex `(2, 1)`. -/
theorem c1_vertex_shifted_witness : vectorField Fcex (1, 1) = some (-1, 0) := by
  have h := c1_vertex_shifted Fcex 1 1 (by norm_num) (by norm_num [Fcex])
    (by norm_num) (by norm_num [Fcex])
  simpa [Fcex, denorm] using h

/-- C4: on the 4x4 constant field with normalized value 1/2 and ranges
[0, 10], every defined sample is exactly `(-5, 5)`. -/
theorem c4_constant (p q : ℚ × ℚ) (h : vectorField F44 p = some q) : q = (-5, 5) := by
  unfold vectorField at h
  obtain ⟨-, -, tl, tr, bl, br, htl, htr, hbl, hbr, hq⟩ := aux_some_inv h
  have e : ∀ x y : ℤ, ∀ r : ℚ × ℚ, getXY F44 x y = some r → r = (1 / 2, 1 / 2) := by
    intro x y r hr
    unfold getXY at hr
    split at hr
    · exact Option.noConfusion hr
    · injection hr with hr
      rw [← hr]
      rfl
  rw [e _ _ _ htl, e _ _ _ htr, e _ _ _ hbl, e _ _ _ hbr] at hq
  simp only [mix_same] at hq
  rw [hq]
  norm_num [denorm, F44, Prod.mk.injEq]

/-- Witness for C4: the interior point `(1, 1)` samples to `(-5, 5)`. -/
theorem c4_constant_witness :
    vectorField F44 (1, 1) = some (-5, 5) ∧ ((-5 : ℚ), (5 : ℚ)) = (-5, 5) := by
  have hv : vectorField F44 (1, 1) = some (-5, 5) := by
    norm_num [vectorField, vectorFieldAux, subIdx, getXY, outside, mix, denorm, F44]
  exact ⟨hv, c4_constant _ _ hv⟩

/-- C5 (code bug): with a degenerate range `maximum = minimum`, the
load-time normalization divides by zero and so never produces a finite
value (NaN or ±Infinity in the code) — no denormalized sample can equal
the shared minimum as claimed; denormalization alone does collapse every
finite value to the minimum, which is the claimed lazy-collapse
behavior. -/
theorem c5_degenerate_range (mx mn : ℚ) (h : mx = mn) :
    (∀ v, normalizeVal v mn mx = none) ∧ (∀ v, denorm v mx mn = mn) := by
  subst h
  constructor
  · intro v
    simp [normalizeVal]
  · intro v
    unfold denorm
    ring

/-- Witness for C5 with `minimum = maximum = 5` and raw value 3. -/
theorem c5_degenerate_range_witness :
    normalizeVal 3 5 5 = none ∧ denorm 3 5 5 = 5 :=
  ⟨(c5_degenerate_range 5 5 rfl).1 3, (c5_degenerate_range 5 5 rfl).2 3⟩

/-- C2 (counterexample): with the midpoint sample undefined, the segment
is drawn with stroke color `rgba(0, 0, 0, 1.)` — opaque black, whose
alpha is 1, not 0. -/
theorem c2_counterexample :
    vectorField Fcex (((10 : ℚ) + 20) * 0.5, ((10 : ℚ) + 20) * 0.5) = none ∧
    (drawSegment Fcex (gradStops ℝ) box33 1280 720 (10, 10) (20, 20)).color =
      some ⟨0, 0, 0, 1⟩ ∧
    (⟨0, 0, 0, 1⟩ : Color).a ≠ 0 := by
  have h : vectorField Fcex (((10 : ℚ) + 20) * 0.5, ((10 : ℚ) + 20) * 0.5) = none := by
    norm_num [vectorField, vectorFieldAux, subIdx, getXY, outside, Fcex]
  refine ⟨h, ?_, by norm_num⟩
  show getColor Fcex (gradStops ℝ) (((10 : ℚ) + 20) * 0.5) (((10 : ℚ) + 20) * 0.5) =
    some ⟨0, 0, 0, 1⟩
  unfold getColor
  rw [h]

/-- C2 (amended): whenever the midpoint sample is undefined, the segment
is still drawn (a two-point path yields exactly one segment) and its
stroke color is fully opaque black, alpha 1. -/
theorem c2_opaque_black (F : VField) (stops : List (Stop ℝ)) (box : BoundingBox)
    (cw ch : ℤ) (a b : ℚ × ℚ)
    (h : vectorField F ((a.1 + b.1) * 0.5, (a.2 + b.2) * 0.5) = none) :
    (drawSegment F stops box cw ch a b).color = some ⟨0, 0, 0, 1⟩ ∧
    onStreamlineAdded F stops box cw ch [a, b] = [drawSegment F stops box cw ch a b] := by
  constructor
  · show getColor F stops ((a.1 + b.1) * 0.5) ((a.2 + b.2) * 0.5) = some ⟨0, 0, 0, 1⟩
    unfold getColor
    rw [h]
  · rfl

/-- Witness for the amended C2: a segment from `(10, 10)` to `(20, 20)`
over the 3x3 field has an out-of-domain midpoint, is still drawn, and is
stroked opaque black. -/
theorem c2_opaque_black_witness :
    (drawSegment Fcex (gradStops ℝ) box33 1280 720 (10, 10) (20, 20)).color =
      some ⟨0, 0, 0, 1⟩ ∧
    onStreamlineAdded Fcex (gradStops ℝ) box33 1280 720 [(10, 10), (20, 20)] =
      [drawSegment Fcex (gradStops ℝ) box33 1280 720 (10, 10) (20, 20)] :=
  c2_opaque_black Fcex (gradStops ℝ) box33 1280 720 (10, 10) (20, 20)
    (by norm_num [vectorField, vectorFieldAux, subIdx, getXY, outside, Fcex])

/-- C9 (amended): for a defined midpoint sample, the stroke alpha equals
`0.1 + 0.9 * (|velocity| / maxVelocity)`; it is always at least 0.1, and
it is at most 1 exactly when the sampled speed does not exceed
`maxVelocity = sqrt(uMax^2 + vMax^2)`. -/
theorem c9_alpha (F : VField) (stops : List (Stop ℝ)) (x y : ℚ) (p : ℚ × ℚ) (c : Color)
    (hp : vectorField F (x, y) = some p)
    (hc : getColor F stops x y = some c) :
    c.a = 0.1 +
      Real.sqrt ((p.1 : ℝ) * (p.1 : ℝ) + (p.2 : ℝ) * (p.2 : ℝ)) / maxVelocity F * 0.9 ∧
    0.1 ≤ c.a ∧
    (Real.sqrt ((p.1 : ℝ) * (p.1 : ℝ) + (p.2 : ℝ) * (p.2 : ℝ)) ≤ maxVelocity F →
      c.a ≤ 1) := by
  unfold getColor at hc
  rw [hp] at hc
  dsimp only at hc
  rcases Option.map_eq_some'.mp hc with ⟨rgb, -, hrgb⟩
  have hca : c.a = 0.1 +
      Real.sqrt ((p.1 : ℝ) * (p.1 : ℝ) + (p.2 : ℝ) * (p.2 : ℝ)) / maxVelocity F * 0.9 := by
    rw [← hrgb]
  have hmv : 0 ≤ maxVelocity F := Real.sqrt_nonneg _
  have hg0 : 0 ≤ Real.sqrt ((p.1 : ℝ) * (p.1 : ℝ) + (p.2 : ℝ) * (p.2 : ℝ)) / maxVelocity F :=
    div_nonneg (Real.sqrt_nonneg _) hmv
  refine ⟨hca, ?_, ?_⟩
  · rw [hca]
    nlinarith [hg0]
  · intro hle
    have hg1 : Real.sqrt ((p.1 : ℝ) * (p.1 : ℝ) + (p.2 : ℝ) * (p.2 : ℝ)) / maxVelocity F ≤ 1 := by
      rcases eq_or_lt_of_le hmv with heq | hpos
      · rw [← heq, div_zero]
        norm_num
      · exact (div_le_one hpos).mpr hle
    rw [hca]
    nlinarith [hg0, hg1]

/-- C9 (counterexample): on a dataset with a negative u-minimum (ranges
u in [-10, 3], v in [0, 4], all raw values at the minima) the sampled
speed 10 exceeds `maxVelocity = 5` and the computed alpha is 1.9,
outside `[0.1, 1]`. -/
theorem c9_counterexample :
    vectorField Fc9 (1, 1) = some (10, 0) ∧
    getColor Fc9 (gradStops ℝ) 1 1 = some ⟨0xe2, 0xe5, 0xaa, 19 / 10⟩ ∧
    ¬ ((19 / 10 : ℝ) ≤ 1) := by
  have hv : vectorField Fc9 (1, 1) = some (10, 0) := by
    norm_num [vectorField, vectorFieldAux, subIdx, getXY, outside, mix, denorm, Fc9]
  refine ⟨hv, ?_, by norm_num⟩
  unfold getColor
  rw [hv]
  dsimp only
  have hmag :
      Real.sqrt (((10 : ℚ) : ℝ) * ((10 : ℚ) : ℝ) + ((0 : ℚ) : ℝ) * ((0 : ℚ) : ℝ)) = 10 := by
    rw [show ((10 : ℚ) : ℝ) * ((10 : ℚ) : ℝ) + ((0 : ℚ) : ℝ) * ((0 : ℚ) : ℝ) = 10 * 10 by
      push_cast; ring]
    exact Real.sqrt_mul_self (by norm_num)
  have hmv : maxVelocity Fc9 = 5 := by
    unfold maxVelocity
    rw [show ((Fc9.uMax : ℝ)) * (Fc9.uMax : ℝ) + (Fc9.vMax : ℝ) * (Fc9.vMax : ℝ) = 5 * 5 by
      norm_num [Fc9]]
    exact Real.sqrt_mul_self (by norm_num)
  rw [hmag, hmv]
  have hgrad : makeGradient.getColor (gradStops ℝ) ((10 : ℝ) / 5) = some ⟨0xe2, 0xe5, 0xaa⟩ := by
    norm_num [makeGradient.getColor, gradStops, Stop.rgb, List.getLastD]
  rw [hgrad]
  norm_num [Color.mk.injEq]

/-- Witness for the amended C9 on `Fw9`, where the sampled speed equals
`maxVelocity`: the alpha is exactly 1 and lies in `[0.1, 1]`. -/
theorem c9_alpha_witness :
    (⟨0xe2, 0xe5, 0xaa, (1 : ℝ)⟩ : Color).a ≤ 1 ∧
    (0.1 : ℝ) ≤ (⟨0xe2, 0xe5, 0xaa, (1 : ℝ)⟩ : Color).a := by
  have hp : vectorField Fw9 (1, 1) = some (-3, 4) := by
    norm_num [vectorField, vectorFieldAux, subIdx, getXY, outside, mix, denorm, Fw9]
  have hmag : Real.sqrt (((-3 : ℚ) : ℝ) * ((-3 : ℚ) : ℝ) + ((4 : ℚ) : ℝ) * ((4 : ℚ) : ℝ)) = 5 := by
    rw [show ((-3 : ℚ) : ℝ) * ((-3 : ℚ) : ℝ) + ((4 : ℚ) : ℝ) * ((4 : ℚ) : ℝ) = 5 * 5 by
      push_cast; ring]
    exact Real.sqrt_mul_self (by norm_num)
  have hmv : maxVelocity Fw9 = 5 := by
    unfold maxVelocity
    rw [show ((Fw9.uMax : ℝ)) * (Fw9.uMax : ℝ) + (Fw9.vMax : ℝ) * (Fw9.vMax : ℝ) = 5 * 5 by
      norm_num [Fw9]]
    exact Real.sqrt_mul_self (by norm_num)
  have hc : getColor Fw9 (gradStops ℝ) 1 1 = some ⟨0xe2, 0xe5, 0xaa, 1⟩ := by
    unfold getColor
    rw [hp]
    dsimp only
    rw [hmag, hmv]
    have hgrad : makeGradient.getColor (gradStops ℝ) ((5 : ℝ) / 5) =
        some ⟨0xe2, 0xe5, 0xaa⟩ := by
      norm_num [makeGradient.getColor, gradStops, Stop.rgb, List.getLastD]
    rw [hgrad]
    norm_num [Color.mk.injEq]
  have h := c9_alpha Fw9 (gradStops ℝ) 1 1 (-3, 4) ⟨0xe2, 0xe5, 0xaa, 1⟩ hp hc
  refine ⟨h.2.2 ?_, h.2.1⟩
  simp only [hmv]
  rw [show (((-3 : ℚ), (4 : ℚ)).1 : ℝ) * (((-3 : ℚ), (4 : ℚ)).1 : ℝ) +
      (((-3 : ℚ), (4 : ℚ)).2 : ℝ) * (((-3 : ℚ), (4 : ℚ)).2 : ℝ) = 5 * 5 by push_cast; norm_num]
  rw [Real.sqrt_mul_self (by norm_num : (0 : ℝ) ≤ 5)]
